import Mathlib

/-!
Verification of the oasis-core versioned, authenticated key-value store
(MKVS) against its specification: node codec, node hashing, the
database-backed storage backend (apply / apply-batch / merge lifecycle and
receipts), the external storage service request caps, and the retry
classification of the runtime client.

Bytes are modelled as natural numbers below 256, byte strings as
`List Nat`, and machine integers as `Nat` with explicit reduction
modulo `2 ^ w` where overflow matters.
-/

namespace Oasis

/-! ## Byte-string primitives -/

/-- 64-bit truncation. -/
def mask64 (x : Nat) : Nat := x % 18446744073709551616

/-- Little-endian encoding of a 64-bit value (`binary.LittleEndian.PutUint64`). -/
def le64 (n : Nat) : List Nat :=
  [n % 256, n / 256 % 256, n / 65536 % 256, n / 16777216 % 256,
   n / 4294967296 % 256, n / 1099511627776 % 256,
   n / 281474976710656 % 256, n / 72057594037927936 % 256]

/-- Little-endian encoding of a 32-bit value (`binary.LittleEndian.PutUint32`). -/
def le32 (n : Nat) : List Nat :=
  [n % 256, n / 256 % 256, n / 65536 % 256, n / 16777216 % 256]

/-- Little-endian encoding of a 16-bit value (`binary.LittleEndian.PutUint16`). -/
def le16 (n : Nat) : List Nat :=
  [n % 256, n / 256 % 256]

/-- Big-endian encoding of a 64-bit value. -/
def be64 (n : Nat) : List Nat :=
  [n / 72057594037927936 % 256, n / 281474976710656 % 256,
   n / 1099511627776 % 256, n / 4294967296 % 256,
   n / 16777216 % 256, n / 65536 % 256, n / 256 % 256, n % 256]

/-- Byte string of an ASCII string (code points; all strings used here are ASCII). -/
def strBytes (s : String) : List Nat := s.toList.map (fun c => c.toNat)

/-! ## SHA-512/256

Modelled from the spec: the spec fixes only "a fixed-width cryptographic
digest (32 bytes)" (the `hash` package is not part of the sources); the
concrete function SHA-512/256 (FIPS 180-4) is pinned by the golden test
vectors of `go/storage/mkvs/node/node_test.go`.
-/

/-- 64-bit right rotation. -/
def rotr64 (r x : Nat) : Nat := mask64 ((x >>> r) ||| (x <<< (64 - r)))

/-- SHA-512 big sigma 0. -/
def bsig0 (x : Nat) : Nat := rotr64 28 x ^^^ rotr64 34 x ^^^ rotr64 39 x

/-- SHA-512 big sigma 1. -/
def bsig1 (x : Nat) : Nat := rotr64 14 x ^^^ rotr64 18 x ^^^ rotr64 41 x

/-- SHA-512 small sigma 0. -/
def ssig0 (x : Nat) : Nat := rotr64 1 x ^^^ rotr64 8 x ^^^ (x >>> 7)

/-- SHA-512 small sigma 1. -/
def ssig1 (x : Nat) : Nat := rotr64 19 x ^^^ rotr64 61 x ^^^ (x >>> 6)

/-- The 80 SHA-512 round constants. -/
def shaK : List Nat :=
  [4794697086780616226, 8158064640168781261, 13096744586834688815, 16840607885511220156,
   4131703408338449720, 6480981068601479193, 10538285296894168987, 12329834152419229976,
   15566598209576043074, 1334009975649890238, 2608012711638119052, 6128411473006802146,
   8268148722764581231, 9286055187155687089, 11230858885718282805, 13951009754708518548,
   16472876342353939154, 17275323862435702243, 1135362057144423861, 2597628984639134821,
   3308224258029322869, 5365058923640841347, 6679025012923562964, 8573033837759648693,
   10970295158949994411, 12119686244451234320, 12683024718118986047, 13788192230050041572,
   14330467153632333762, 15395433587784984357, 489312712824947311, 1452737877330783856,
   2861767655752347644, 3322285676063803686, 5560940570517711597, 5996557281743188959,
   7280758554555802590, 8532644243296465576, 9350256976987008742, 10552545826968843579,
   11727347734174303076, 12113106623233404929, 14000437183269869457, 14369950271660146224,
   15101387698204529176, 15463397548674623760, 17586052441742319658, 1182934255886127544,
   1847814050463011016, 2177327727835720531, 2830643537854262169, 3796741975233480872,
   4115178125766777443, 5681478168544905931, 6601373596472566643, 7507060721942968483,
   8399075790359081724, 8693463985226723168, 9568029438360202098, 10144078919501101548,
   10430055236837252648, 11840083180663258601, 13761210420658862357, 14299343276471374635,
   14566680578165727644, 15097957966210449927, 16922976911328602910, 17689382322260857208,
   500013540394364858, 748580250866718886, 1242879168328830382, 1977374033974150939,
   2944078676154940804, 3659926193048069267, 4368137639120453308, 4836135668995329356,
   5532061633213252278, 6448918945643986474, 6902733635092675308, 7801388544844847127]

/-- SHA-512 compression state: eight 64-bit working variables. -/
structure Sha2St where
  a : Nat
  b : Nat
  c : Nat
  d : Nat
  e : Nat
  f : Nat
  g : Nat
  h : Nat
deriving DecidableEq, Repr

/-- SHA-512/256 initial hash value (FIPS 180-4 section 5.3.6.2). -/
def sha512_256IV : Sha2St :=
  ⟨2463787394917988140, 11481187982095705282, 2563595384472711505, 10824532655140301501,
   10819967247969091555, 13717434660681038226, 3098927326965381290, 1060366662362279074⟩

/-- Group a byte string into big-endian 64-bit words; a trailing group of
fewer than eight bytes is dropped (inputs are always block-aligned). -/
def bytesToWords64 : List Nat → List Nat
  | b0 :: b1 :: b2 :: b3 :: b4 :: b5 :: b6 :: b7 :: rest =>
      (((((((b0 * 256 + b1) * 256 + b2) * 256 + b3) * 256 + b4) * 256 + b5) * 256
          + b6) * 256 + b7) :: bytesToWords64 rest
  | _ => []

/-- Extend sixteen message words to the full eighty-word schedule. -/
def shaSchedule (w16 : List Nat) : List Nat :=
  (List.range 64).foldl
    (fun w _ =>
      w ++ [mask64 (ssig1 (w.getD (w.length - 2) 0) + w.getD (w.length - 7) 0
              + ssig0 (w.getD (w.length - 15) 0) + w.getD (w.length - 16) 0)])
    w16

/-- One SHA-512 round, consuming a `(constant, scheduled word)` pair. -/
def shaRound (st : Sha2St) (kw : Nat × Nat) : Sha2St :=
  let ch := (st.e &&& st.f) ^^^ ((st.e ^^^ 18446744073709551615) &&& st.g)
  let maj := (st.a &&& st.b) ^^^ (st.a &&& st.c) ^^^ (st.b &&& st.c)
  let t1 := mask64 (st.h + bsig1 st.e + ch + kw.1 + kw.2)
  let t2 := mask64 (bsig0 st.a + maj)
  ⟨mask64 (t1 + t2), st.a, st.b, st.c, mask64 (st.d + t1), st.e, st.f, st.g⟩

/-- Compress one 128-byte block into the state. -/
def shaCompress (st : Sha2St) (block : List Nat) : Sha2St :=
  let w := shaSchedule (bytesToWords64 block)
  let s := (shaK.zip w).foldl shaRound st
  ⟨mask64 (st.a + s.a), mask64 (st.b + s.b), mask64 (st.c + s.c), mask64 (st.d + s.d),
   mask64 (st.e + s.e), mask64 (st.f + s.f), mask64 (st.g + s.g), mask64 (st.h + s.h)⟩

/-- Compress a padded message block by block; `fuel` bounds the number of
blocks and is always instantiated with the exact block count. -/
def shaBlocks : Nat → Sha2St → List Nat → Sha2St
  | 0, st, _ => st
  | _, st, [] => st
  | fuel + 1, st, b :: rest =>
      shaBlocks fuel (shaCompress st (List.take 128 (b :: rest))) (List.drop 128 (b :: rest))

/-- SHA padding: append `0x80`, zeros, and the 128-bit big-endian bit length,
reaching a multiple of 128 bytes. -/
def shaPad (msg : List Nat) : List Nat :=
  let l := msg.length
  let zeros := (239 - l % 128) % 128
  msg ++ [128] ++ List.replicate zeros 0 ++ List.replicate 8 0 ++ be64 (8 * l)

/-- SHA-512/256 digest (32 bytes) of a byte string. `hash.Hash.FromBytes` /
`hash.NewFromBytes` digest the concatenation of their arguments with this
function. -/
def sha512_256 (msg : List Nat) : List Nat :=
  let padded := shaPad msg
  let st := shaBlocks (padded.length / 128) sha512_256IV padded
  be64 st.a ++ be64 st.b ++ be64 st.c ++ be64 st.d

/-- Lower-case hex rendering of a byte string (`hash.Hash.String`). -/
def bytesToHex (bs : List Nat) : String :=
  String.mk (bs.foldr (fun b acc =>
    "0123456789abcdef".toList.getD (b / 16) (Char.ofNat 63) ::
    "0123456789abcdef".toList.getD (b % 16) (Char.ofNat 63) :: acc) [])

set_option maxRecDepth 100000

/-! ## Node model and binary codec

Modelled from the spec (sections 3 and 4.1): the node sources
`go/storage/mkvs/node/node.go` are not part of the provided files, only
their test `go/storage/mkvs/node/node_test.go` is.  The node kind bytes
(leaf `0x00`, internal `0x01`, nil pointer `0x02`) and the little-endian
integer fields are pinned by the golden hash vectors of that test; length
prefixes for key and value are 32 bits and the label bit length is 16 bits
as in the spec.
-/

/-- Serialization prefix of a leaf node (pinned by the golden hash vectors). -/
def PrefixLeafNode : Nat := 0

/-- Serialization prefix of an internal node (pinned by the golden hash vectors). -/
def PrefixInternalNode : Nat := 1

/-- Serialization prefix of a nil pointer. -/
def PrefixNilNode : Nat := 2

/-- Hash of the empty (0 byte) string (`hash.Hash.Empty`). -/
def emptyHash : List Nat := sha512_256 []

mutual

/-- Modelled from the spec: a tree node is either
`Leaf(clean, version, key, value, hash)` or
`Internal(clean, version, label, label_bit_length, leaf_node, left, right, hash)`. -/
inductive Node where
  | leaf : Bool → Nat → List Nat → List Nat → List Nat → Node
  | internal : Bool → Nat → List Nat → Nat →
      Option Pointer → Option Pointer → Option Pointer → List Nat → Node

/-- Modelled from the spec: a `Pointer` is `(clean, hash, optional resolved node)`;
a missing pointer is represented as `none` at its use sites. -/
inductive Pointer where
  | mk : Bool → List Nat → Option Node → Pointer

end

/-- Clean flag of a node. -/
def Node.cleanOf : Node → Bool
  | .leaf cl _ _ _ _ => cl
  | .internal cl _ _ _ _ _ _ _ => cl

/-- Version of a node. -/
def Node.versionOf : Node → Nat
  | .leaf _ v _ _ _ => v
  | .internal _ v _ _ _ _ _ _ => v

/-- Cached hash of a node. -/
def Node.hashOf : Node → List Nat
  | .leaf _ _ _ _ h => h
  | .internal _ _ _ _ _ _ _ h => h

/-- `Pointer.GetHash`: the empty hash for a nil pointer, the cached hash otherwise. -/
def Pointer.getHash : Option Pointer → List Nat
  | none => emptyHash
  | some (.mk _ h _) => h

/-- Hash preimage digest of a leaf node (`LeafNode.UpdateHash`):
digest of `kind byte ‖ LE64 version ‖ key ‖ value`, as pinned by the
golden vector of `TestHashLeafNode`. -/
def leafNodeHash (version : Nat) (key value : List Nat) : List Nat :=
  sha512_256 ([PrefixLeafNode] ++ le64 version ++ key ++ value)

/-- Hash preimage digest of an internal node (`InternalNode.UpdateHash`):
digest of `kind byte ‖ LE64 version ‖ LE16 label_bit_length ‖ label ‖
leaf pointer hash ‖ left hash ‖ right hash`, as pinned by the golden
vector of `TestHashInternalNode`. -/
def internalNodeHash (version bits : Nat) (label leafH leftH rightH : List Nat) : List Nat :=
  sha512_256 ([PrefixInternalNode] ++ le64 version ++ le16 bits ++ label
    ++ leafH ++ leftH ++ rightH)

/-- `UpdateHash`: recompute the cached hash from the node contents; the
clean flag is not part of the preimage. -/
def Node.updateHash : Node → Node
  | .leaf cl v k val _ => .leaf cl v k val (leafNodeHash v k val)
  | .internal cl v label bits leafP l r _ =>
      .internal cl v label bits leafP l r
        (internalNodeHash v bits label (Pointer.getHash leafP)
          (Pointer.getHash l) (Pointer.getHash r))

/-- Go `copy` into a zero-filled buffer of size `n`: the first `n` bytes of
`l`, zero-padded when `l` is shorter. -/
def padTrunc (n : Nat) (l : List Nat) : List Nat :=
  l.take n ++ List.replicate (n - l.length) 0

/-- `LeafNode.MarshalBinary`: full (and compact) encoding of a leaf:
`kind ‖ LE64 version ‖ LE32 key length ‖ key ‖ LE32 value length ‖ value`. -/
def leafMarshalBinary (version : Nat) (key value : List Nat) : List Nat :=
  [PrefixLeafNode] ++ le64 version ++ le32 key.length ++ key
    ++ le32 value.length ++ value

/-- `InternalNode.CompactMarshalBinary` body: the compact encoding of an
internal node; fails (as the Go type assertion would) when the co-located
leaf pointer does not hold a resolved leaf node. -/
def internalCompactBytes (version : Nat) (label : List Nat) (bits : Nat)
    (leafP : Option Pointer) : Option (List Nat) :=
  (match leafP with
    | none => some [PrefixNilNode]
    | some (.mk _ _ (some (.leaf _ lv lk lval _))) => some (leafMarshalBinary lv lk lval)
    | some _ => none).map
  (fun leafBin =>
    [PrefixInternalNode] ++ le64 version ++ le16 bits
      ++ padTrunc ((bits + 7) / 8) label ++ leafBin)

/-- `CompactMarshalBinary`: the compact encoding of a node. For leaves it is
the full encoding (the Go method delegates to `MarshalBinary`). -/
def Node.compactMarshalBinary : Node → Option (List Nat)
  | .leaf _ v k val _ => some (leafMarshalBinary v k val)
  | .internal _ v label bits leafP _ _ _ => internalCompactBytes v label bits leafP

/-- `MarshalBinary`: the full encoding of a node; for an internal node the
compact encoding followed by the left and right child hashes. -/
def Node.marshalBinary : Node → Option (List Nat)
  | .leaf _ v k val _ => some (leafMarshalBinary v k val)
  | .internal _ v label bits leafP l r _ =>
      (internalCompactBytes v label bits leafP).map
        (fun c => c ++ Pointer.getHash l ++ Pointer.getHash r)

/-- Little-endian value of a byte string. -/
def decLE (l : List Nat) : Nat := l.foldr (fun b acc => b + 256 * acc) 0

/-- Split off exactly `n` elements, failing when fewer are available. -/
def takeExact (n : Nat) (l : List α) : Option (List α × List α) :=
  if l.length < n then none else some (l.take n, l.drop n)

/-- `LeafNode.SizedUnmarshalBinary`: parse a leaf node from the front of a
byte string, returning the node (clean, with recomputed hash) and the
remaining bytes. -/
def leafSizedUnmarshal (data : List Nat) : Option (Node × List Nat) :=
  match data with
  | [] => none
  | b :: rest =>
    if b = PrefixLeafNode then
      (takeExact 8 rest).bind fun p1 =>
      (takeExact 4 p1.2).bind fun p2 =>
      (takeExact (decLE p2.1) p2.2).bind fun p3 =>
      (takeExact 4 p3.2).bind fun p4 =>
      (takeExact (decLE p4.1) p4.2).map fun p5 =>
        (Node.leaf true (decLE p1.1) p3.1 p5.1
          (leafNodeHash (decLE p1.1) p3.1 p5.1), p5.2)
    else none

/-- Parse the inline co-located leaf pointer: a leaf prefix starts an inline
leaf encoding, the nil prefix stands for an absent pointer. -/
def parseLeafPtr (l : List Nat) : Option (Option Pointer × List Nat) :=
  match l with
  | [] => none
  | c :: r =>
    if c = PrefixLeafNode then
      (leafSizedUnmarshal l).map fun (pl : Node × List Nat) =>
        (some (Pointer.mk true pl.1.hashOf (some pl.1)), pl.2)
    else if c = PrefixNilNode then
      some (none, r)
    else none

/-- `InternalNode.SizedUnmarshalBinary`: parse an internal node from a byte
string.  The co-located leaf pointer is reconstructed from its inline
encoding; child hashes are present exactly when at least 64 bytes remain
(full form), otherwise the child pointers are absent (compact form).  The
node is returned clean with its hash recomputed. -/
def internalSizedUnmarshal (data : List Nat) : Option (Node × List Nat) :=
  match data with
  | [] => none
  | b :: rest =>
    if b = PrefixInternalNode then
      (takeExact 8 rest).bind fun p1 =>
      (takeExact 2 p1.2).bind fun p2 =>
      (takeExact ((decLE p2.1 + 7) / 8) p2.2).bind fun p3 =>
      (parseLeafPtr p3.2).bind fun pleaf =>
      (if 64 ≤ pleaf.2.length then
        (takeExact 32 pleaf.2).bind fun p5 =>
        (takeExact 32 p5.2).map fun (p6 : List Nat × List Nat) =>
          (Node.internal true (decLE p1.1) p3.1 (decLE p2.1) pleaf.1
            (some (Pointer.mk true p5.1 none)) (some (Pointer.mk true p6.1 none))
            (internalNodeHash (decLE p1.1) (decLE p2.1) p3.1
              (Pointer.getHash pleaf.1) p5.1 p6.1), p6.2)
      else
        some (Node.internal true (decLE p1.1) p3.1 (decLE p2.1) pleaf.1 none none
          (internalNodeHash (decLE p1.1) (decLE p2.1) p3.1
            (Pointer.getHash pleaf.1) emptyHash emptyHash), pleaf.2))
    else none

/-- Generic node decoding (`UnmarshalBinary`): dispatch on the kind byte;
trailing bytes beyond one node are ignored, as in the Go decoder. -/
def Node.unmarshalBinary (data : List Nat) : Option Node :=
  match data with
  | [] => none
  | b :: _ =>
    if b = PrefixLeafNode then (leafSizedUnmarshal data).map Prod.fst
    else if b = PrefixInternalNode then (internalSizedUnmarshal data).map Prod.fst
    else none

/-! ### Well-formedness and the decoded normal form -/

/-- Field bounds under which a leaf node is encodable without truncation. -/
def LeafFieldsWF (v : Nat) (k val : List Nat) : Prop :=
  v < 18446744073709551616 ∧ k.length < 4294967296 ∧ val.length < 4294967296

/-- The cached hash of a present pointer is 32 bytes wide. -/
def PtrHashWF : Option Pointer → Prop
  | none => True
  | some (.mk _ h _) => h.length = 32

/-- A co-located leaf pointer is absent or holds a resolved, encodable leaf. -/
def LeafPtrWF : Option Pointer → Prop
  | none => True
  | some (.mk _ _ (some (.leaf _ lv lk lval _))) => LeafFieldsWF lv lk lval
  | some _ => False

/-- Nodes whose fields fit the fixed-width fields of the codec. -/
def Node.WF : Node → Prop
  | .leaf _ v k val _ => LeafFieldsWF v k val
  | .internal _ v label bits leafP l r _ =>
      v < 18446744073709551616 ∧ bits < 65536 ∧ label.length = (bits + 7) / 8 ∧
      LeafPtrWF leafP ∧ PtrHashWF l ∧ PtrHashWF r

/-- Decoding reconstructs the co-located leaf pointer as a clean pointer to a
clean leaf with recomputed hash. -/
def leafPtrNorm : Option Pointer → Option Pointer
  | some (.mk _ _ (some (.leaf _ lv lk lval _))) =>
      some (.mk true (leafNodeHash lv lk lval)
        (some (.leaf true lv lk lval (leafNodeHash lv lk lval))))
  | _ => none

/-- The node produced by decoding the full (`full = true`) or compact
(`full = false`) encoding of a node: clean, with recomputed hashes, child
pointers reduced to their hashes (full) or dropped (compact). -/
def decodedForm (full : Bool) : Node → Node
  | .leaf _ v k val _ => .leaf true v k val (leafNodeHash v k val)
  | .internal _ v label bits leafP l r _ =>
      if full then
        .internal true v label bits (leafPtrNorm leafP)
          (some (.mk true (Pointer.getHash l) none))
          (some (.mk true (Pointer.getHash r) none))
          (internalNodeHash v bits label (Pointer.getHash (leafPtrNorm leafP))
            (Pointer.getHash l) (Pointer.getHash r))
      else
        .internal true v label bits (leafPtrNorm leafP) none none
          (internalNodeHash v bits label (Pointer.getHash (leafPtrNorm leafP))
            emptyHash emptyHash)

/-- The resolved co-located leaf content `(version, key, value)` of a pointer. -/
def leafContent : Option Pointer → Option (Nat × List Nat × List Nat)
  | some (.mk _ _ (some (.leaf _ lv lk lval _))) => some (lv, lk, lval)
  | _ => none

/-- Agreement of two nodes on every field the compact form carries:
version, key and value for leaves; version, label, label bit length and
co-located leaf content for internal nodes. -/
def agreesCompactFields : Node → Node → Prop
  | .leaf _ v k val _, .leaf _ v2 k2 val2 _ => v = v2 ∧ k = k2 ∧ val = val2
  | .internal _ v label bits leafP _ _ _, .internal _ v2 label2 bits2 leafP2 _ _ _ =>
      v = v2 ∧ label = label2 ∧ bits = bits2 ∧ leafContent leafP = leafContent leafP2
  | _, _ => False

/-- Agreement on every field the full form carries: the compact fields and,
for internal nodes, the child hashes. -/
def agreesFullFields (n m : Node) : Prop :=
  agreesCompactFields n m ∧
  match n, m with
  | .internal _ _ _ _ _ l r _, .internal _ _ _ _ _ l2 r2 _ =>
      Pointer.getHash l = Pointer.getHash l2 ∧ Pointer.getHash r = Pointer.getHash r2
  | _, _ => True

/-! ## Storage backend (`go/storage/database/database.go`)

The backend composes a root cache and a receipt signer.  The root cache
and the node database are not part of the provided sources; they are
abstracted as an explicit state `S` threaded through a caller-supplied
apply/merge function, exactly as `database.go` calls them.
-/

/-- A write log: ordered `(key, value)` entries. -/
def WriteLog : Type := List (List Nat × List Nat)

/-- Errors surfaced by the backend. -/
inductive StorageError where
  | cache : Nat → StorageError
  | signer : StorageError
deriving DecidableEq

/-- Modelled from the spec: a signer with a public key and a fallible
context-tagged signing function (`signature.Signer`). -/
structure Signer where
  publicKey : List Nat
  contextSign : List Nat → Option (List Nat)

/-- Modelled from the spec: a receipt is the signed tuple
`(namespace, round, roots, signer_public_key, signature)`. -/
structure Receipt where
  ns : List Nat
  round : Nat
  roots : List (List Nat)
  signerPublicKey : List Nat
  signature : List Nat

/-- Deterministic encoding of the receipt body `(namespace, round, roots)`
signed by `SignReceipt`. -/
def receiptBodyEncode (ns : List Nat) (round : Nat) (roots : List (List Nat)) : List Nat :=
  le32 ns.length ++ ns ++ le64 round ++ le32 roots.length
    ++ roots.foldr (fun r acc => le32 r.length ++ r ++ acc) []

/-- Modelled from the spec: `api.SignReceipt` signs the receipt body and
returns the receipt; it fails when the signer fails. -/
def SignReceipt (signer : Signer) (ns : List Nat) (round : Nat)
    (roots : List (List Nat)) : Option Receipt :=
  (signer.contextSign (receiptBodyEncode ns round roots)).map
    (fun sig => ⟨ns, round, roots, signer.publicKey, sig⟩)

/-- `databaseBackend.Apply`: run the root cache apply, then sign a receipt
for the destination round over the computed root.  The returned state is
the node database state after the call; an error result carries no
receipt. -/
def databaseBackend.Apply {S : Type}
    (rootCacheApply : S → List Nat → Nat → List Nat → Nat → List Nat → WriteLog →
      Except StorageError (S × List Nat))
    (signer : Signer) (st : S) (ns : List Nat) (srcRound : Nat) (srcRoot : List Nat)
    (dstRound : Nat) (dstRoot : List Nat) (writeLog : WriteLog) :
    S × Except StorageError (List Receipt) :=
  match rootCacheApply st ns srcRound srcRoot dstRound dstRoot writeLog with
  | .error e => (st, .error e)
  | .ok (st2, newRoot) =>
      match SignReceipt signer ns dstRound [newRoot] with
      | none => (st2, .error .signer)
      | some receipt => (st2, .ok [receipt])

/-- One operation of `databaseBackend.ApplyBatch`. -/
structure ApplyOp where
  srcRound : Nat
  srcRoot : List Nat
  dstRoot : List Nat
  writeLog : WriteLog

/-- The `ApplyBatch` loop over the root cache: apply each op in order,
stopping at the first error; the state after the call reflects every
op already applied. -/
def applyOps {S : Type} (f : S → ApplyOp → Except StorageError (S × List Nat)) :
    S → List ApplyOp → S × Except StorageError (List (List Nat))
  | st, [] => (st, .ok [])
  | st, op :: rest =>
    match f st op with
    | .error e => (st, .error e)
    | .ok (st2, root) =>
      match applyOps f st2 rest with
      | (st3, .error e) => (st3, .error e)
      | (st3, .ok roots) => (st3, .ok (root :: roots))

/-- `databaseBackend.ApplyBatch`: apply every op sequentially through the
root cache, then sign a single receipt for the destination round over all
computed roots; on any per-op failure return the error and no receipts. -/
def databaseBackend.ApplyBatch {S : Type}
    (rootCacheApply : S → List Nat → Nat → List Nat → Nat → List Nat → WriteLog →
      Except StorageError (S × List Nat))
    (signer : Signer) (st : S) (ns : List Nat) (dstRound : Nat) (ops : List ApplyOp) :
    S × Except StorageError (List Receipt) :=
  match applyOps
      (fun s op => rootCacheApply s ns op.srcRound op.srcRoot dstRound op.dstRoot op.writeLog)
      st ops with
  | (st2, .error e) => (st2, .error e)
  | (st2, .ok roots) =>
      match SignReceipt signer ns dstRound roots with
      | none => (st2, .error .signer)
      | some receipt => (st2, .ok [receipt])

/-- `databaseBackend.Merge`: run the root cache merge for `round`, then sign
a receipt for `round + 1` over the merged root. -/
def databaseBackend.Merge {S : Type}
    (rootCacheMerge : S → List Nat → Nat → List Nat → List (List Nat) →
      Except StorageError (S × List Nat))
    (signer : Signer) (st : S) (ns : List Nat) (round : Nat) (base : List Nat)
    (others : List (List Nat)) : S × Except StorageError (List Receipt) :=
  match rootCacheMerge st ns round base others with
  | .error e => (st, .error e)
  | .ok (st2, newRoot) =>
      match SignReceipt signer ns (round + 1) [newRoot] with
      | none => (st2, .error .signer)
      | some receipt => (st2, .ok [receipt])

/-- Backend name of the LevelDB backed database backend. -/
def BackendNameLevelDB : String := "leveldb"

/-- Backend name of the BadgerDB backed database backend. -/
def BackendNameBadgerDB : String := "badger"

/-- Default LevelDB backing store filename. -/
def DBFileLevelDB : String := "mkvs_storage.leveldb.db"

/-- Default BadgerDB backing store filename. -/
def DBFileBadgerDB : String := "mkvs_storage.badger.db"

/-- `DefaultFileName`: the default database filename for a backend;
`none` models the panic on an unknown backend name. -/
def DefaultFileName (backend : String) : Option String :=
  if backend = BackendNameLevelDB then some DBFileLevelDB
  else if backend = BackendNameBadgerDB then some DBFileBadgerDB
  else none

/-- Fallback operation for positional list access. -/
def dfltOp : ApplyOp := ⟨0, [], [], []⟩

/-! ## External storage service (`go/worker/storage/service_external.go`)

The service wraps the storage backend with per-runtime request caps.  The
runtime registry, the IO write-log validator and the backend are abstract
parameters; each embedded function additionally reports whether the
backend was invoked, making "nothing is applied" expressible.
-/

/-- Root type of an apply operation. -/
inductive RootType where
  | state
  | io
deriving DecidableEq

/-- The storage part of the runtime configuration returned by the registry. -/
structure RuntimeStorageConfig where
  maxApplyWriteLogEntries : Nat
  maxApplyOps : Nat

/-- An `Apply` request as seen by the external service. -/
structure ApplyRequest where
  ns : List Nat
  rootType : RootType
  writeLog : WriteLog

/-- One operation of an `ApplyBatch` request. -/
structure ApplyBatchOp where
  rootType : RootType
  writeLog : WriteLog

/-- An `ApplyBatch` request as seen by the external service. -/
structure ApplyBatchRequest where
  ns : List Nat
  ops : List ApplyBatchOp

/-- Errors returned by the external service. -/
inductive ServiceError where
  | ctxDone
  | debugRejectUpdates
  | configUnavailable
  | limitReached
  | malformedIORoot
  | backend : StorageError → ServiceError
deriving DecidableEq

/-- `storageService.Apply`: initialization and debug gates, config lookup,
write-log cap, IO write-log validation, then the backend call.  The second
component records whether the backend was invoked. -/
def storageService.Apply
    (initialized debugRejectUpdates : Bool)
    (getConfig : List Nat → Option RuntimeStorageConfig)
    (validateWL : WriteLog → Bool)
    (backendApply : ApplyRequest → Except ServiceError (List Receipt))
    (request : ApplyRequest) : Except ServiceError (List Receipt) × Bool :=
  if ¬ initialized then (.error .ctxDone, false)
  else if debugRejectUpdates then (.error .debugRejectUpdates, false)
  else
    match getConfig request.ns with
    | none => (.error .configUnavailable, false)
    | some cfg =>
      if cfg.maxApplyWriteLogEntries < request.writeLog.length then
        (.error .limitReached, false)
      else if request.rootType = .io && ! validateWL request.writeLog then
        (.error .malformedIORoot, false)
      else (backendApply request, true)

/-- The per-op check loop of `storageService.ApplyBatch`: ops are checked
in order, the write-log cap before the IO validation of each op; the first
failing check decides the error. -/
def checkBatchOps (cfg : RuntimeStorageConfig) (validateWL : WriteLog → Bool) :
    List ApplyBatchOp → Option ServiceError
  | [] => none
  | op :: rest =>
    if cfg.maxApplyWriteLogEntries < op.writeLog.length then some .limitReached
    else if op.rootType = .io && ! validateWL op.writeLog then some .malformedIORoot
    else checkBatchOps cfg validateWL rest

/-- `storageService.ApplyBatch`: initialization and debug gates, config
lookup, batch op cap, per-op checks, then the backend call. -/
def storageService.ApplyBatch
    (initialized debugRejectUpdates : Bool)
    (getConfig : List Nat → Option RuntimeStorageConfig)
    (validateWL : WriteLog → Bool)
    (backendApplyBatch : ApplyBatchRequest → Except ServiceError (List Receipt))
    (request : ApplyBatchRequest) : Except ServiceError (List Receipt) × Bool :=
  if ¬ initialized then (.error .ctxDone, false)
  else if debugRejectUpdates then (.error .debugRejectUpdates, false)
  else
    match getConfig request.ns with
    | none => (.error .configUnavailable, false)
    | some cfg =>
      if cfg.maxApplyOps < request.ops.length then (.error .limitReached, false)
      else
        match checkBatchOps cfg validateWL request.ops with
        | some e => (.error e, false)
        | none => (backendApplyBatch request, true)

/-! ## Runtime client retry classification (`doSubmitTxToLeader`, part_002)

`doSubmitTxToLeader` wraps one `SubmitTx` attempt in a classification
consumed by the `backoff` retry loop: a plain error is retried, a
`backoff.Permanent`-wrapped error stops the retries. -/

/-- Context errors observable through `ctx.Err()`. -/
inductive CtxError where
  | canceled
  | deadlineExceeded
deriving DecidableEq

/-- The gRPC status codes the classification distinguishes. -/
inductive GrpcCode where
  | unavailable
  | other
deriving DecidableEq

/-- An error observed inside the retried operation. -/
inductive SubmitError where
  | ctx : CtxError → SubmitError
  | grpc : GrpcCode → SubmitError
deriving DecidableEq

/-- Classification of one attempt, as consumed by `backoff.Retry`. -/
inductive RetryClass where
  | success
  | transient : SubmitError → RetryClass
  | permanent : SubmitError → RetryClass
deriving DecidableEq

/-- The classification performed by the `op` closure of
`doSubmitTxToLeader` (part_002, lines 136-148): a pending context error is
wrapped in `backoff.Permanent`; an `Unavailable` status is returned plain
(retried); any other error is wrapped in `backoff.Permanent`. -/
def doSubmitTxClassify (ctxErr : Option CtxError) (submitErr : Option GrpcCode) :
    RetryClass :=
  match ctxErr with
  | some e => .permanent (.ctx e)
  | none =>
    match submitErr with
    | some c =>
        if c = GrpcCode.unavailable then .transient (.grpc c)
        else .permanent (.grpc c)
    | none => .success

/-! ## Theorems -/

/-! ### Codec lemmas -/

theorem sha512_256_length (m : List Nat) : (sha512_256 m).length = 32 := by
  simp [sha512_256, be64]

theorem takeExact_of_len {α : Type} {x : List α} {n : Nat} (ys : List α)
    (h : x.length = n) : takeExact n (x ++ ys) = some (x, ys) := by
  subst h
  unfold takeExact
  rw [if_neg (by simp)]
  rw [List.take_left, List.drop_left]

theorem decLE_le64 {v : Nat} (h : v < 18446744073709551616) : decLE (le64 v) = v := by
  simp [decLE, le64]
  omega

theorem decLE_le32 {v : Nat} (h : v < 4294967296) : decLE (le32 v) = v := by
  simp [decLE, le32]
  omega

theorem decLE_le16 {v : Nat} (h : v < 65536) : decLE (le16 v) = v := by
  simp [decLE, le16]
  omega

theorem padTrunc_of_len {n : Nat} {l : List Nat} (h : l.length = n) :
    padTrunc n l = l := by
  subst h
  simp [padTrunc]

/-- Parsing inverts leaf serialization, leaving any trailing bytes. -/
theorem leafSizedUnmarshal_marshal (v : Nat) (k val rest : List Nat)
    (hv : v < 18446744073709551616) (hk : k.length < 4294967296)
    (hval : val.length < 4294967296) :
    leafSizedUnmarshal (leafMarshalBinary v k val ++ rest) =
      some (Node.leaf true v k val (leafNodeHash v k val), rest) := by
  have h1 : leafMarshalBinary v k val ++ rest =
      PrefixLeafNode :: (le64 v ++ (le32 k.length ++ (k ++ (le32 val.length ++ (val ++ rest))))) := by
    simp [leafMarshalBinary]
  rw [h1]
  simp only [leafSizedUnmarshal, if_pos]
  rw [takeExact_of_len _ (by rfl : (le64 v).length = 8)]
  simp only [Option.some_bind]
  rw [takeExact_of_len _ (by rfl : (le32 k.length).length = 4)]
  simp only [Option.some_bind]
  rw [decLE_le32 hk, takeExact_of_len _ rfl]
  simp only [Option.some_bind]
  rw [takeExact_of_len _ (by rfl : (le32 val.length).length = 4)]
  simp only [Option.some_bind]
  rw [decLE_le32 hval, takeExact_of_len _ rfl]
  simp only [Option.map_some']
  rw [decLE_le64 hv]

theorem takeExact_exact {α : Type} {xs : List α} {n : Nat} (h : xs.length = n) :
    takeExact n xs = some (xs, []) := by
  have h2 := takeExact_of_len (x := xs) [] h
  simpa using h2

theorem parseLeafPtr_nil_marker (r : List Nat) :
    parseLeafPtr (PrefixNilNode :: r) = some (none, r) := by
  simp [parseLeafPtr, PrefixNilNode, PrefixLeafNode]

theorem parseLeafPtr_leaf (lv : Nat) (lk lval rest : List Nat)
    (hv : lv < 18446744073709551616) (hk : lk.length < 4294967296)
    (hval : lval.length < 4294967296) :
    parseLeafPtr (leafMarshalBinary lv lk lval ++ rest) =
      some (some (Pointer.mk true (leafNodeHash lv lk lval)
        (some (Node.leaf true lv lk lval (leafNodeHash lv lk lval)))), rest) := by
  have h1 : leafMarshalBinary lv lk lval ++ rest =
      PrefixLeafNode :: ((le64 lv ++ le32 lk.length ++ lk ++ le32 lval.length ++ lval) ++ rest) := by
    simp [leafMarshalBinary]
  rw [h1]
  simp only [parseLeafPtr, if_pos]
  rw [← h1, leafSizedUnmarshal_marshal lv lk lval rest hv hk hval]
  simp [Node.hashOf]

/-- Parsing inverts the full internal-node serialization. -/
theorem internalSizedUnmarshal_full (v bits : Nat) (label lh rh cb : List Nat)
    (leafP : Option Pointer)
    (hv : v < 18446744073709551616) (hbits : bits < 65536)
    (hlabel : label.length = (bits + 7) / 8) (hleaf : LeafPtrWF leafP)
    (hcb : internalCompactBytes v label bits leafP = some cb)
    (hlh : lh.length = 32) (hrh : rh.length = 32) :
    internalSizedUnmarshal (cb ++ lh ++ rh) =
      some (Node.internal true v label bits (leafPtrNorm leafP)
        (some (.mk true lh none)) (some (.mk true rh none))
        (internalNodeHash v bits label (Pointer.getHash (leafPtrNorm leafP)) lh rh), []) := by
  rcases leafP with _ | ⟨pc, ph, pn⟩
  · simp only [internalCompactBytes, padTrunc_of_len hlabel, Option.map_some',
      Option.some.injEq] at hcb
    subst hcb
    have hshape : ([PrefixInternalNode] ++ le64 v ++ le16 bits ++ label ++ [PrefixNilNode])
        ++ lh ++ rh =
        PrefixInternalNode :: (le64 v ++ (le16 bits ++ (label ++ (PrefixNilNode :: (lh ++ rh))))) := by
      simp
    rw [hshape]
    simp only [internalSizedUnmarshal, if_pos]
    rw [takeExact_of_len _ (by rfl : (le64 v).length = 8)]
    simp only [Option.some_bind]
    rw [takeExact_of_len _ (by rfl : (le16 bits).length = 2)]
    simp only [Option.some_bind]
    rw [decLE_le16 hbits, takeExact_of_len _ hlabel]
    simp only [Option.some_bind]
    rw [parseLeafPtr_nil_marker]
    simp only [Option.some_bind]
    rw [if_pos (by simp [hlh, hrh] : 64 ≤ (lh ++ rh).length)]
    rw [takeExact_of_len _ hlh]
    simp only [Option.some_bind]
    rw [takeExact_exact hrh]
    simp only [Option.map_some']
    rw [decLE_le64 hv]
    simp [leafPtrNorm]
  · rcases pn with _ | n
    · simp [LeafPtrWF] at hleaf
    rcases n with ⟨lcl, lv2, lk2, lval2, lhh⟩ | inode
    · obtain ⟨hv2, hk2, hval2⟩ := hleaf
      simp only [internalCompactBytes, padTrunc_of_len hlabel, Option.map_some',
        Option.some.injEq] at hcb
      subst hcb
      have hshape : ([PrefixInternalNode] ++ le64 v ++ le16 bits ++ label
          ++ leafMarshalBinary lv2 lk2 lval2) ++ lh ++ rh =
          PrefixInternalNode :: (le64 v ++ (le16 bits ++ (label
            ++ (leafMarshalBinary lv2 lk2 lval2 ++ (lh ++ rh))))) := by
        simp
      rw [hshape]
      simp only [internalSizedUnmarshal, if_pos]
      rw [takeExact_of_len _ (by rfl : (le64 v).length = 8)]
      simp only [Option.some_bind]
      rw [takeExact_of_len _ (by rfl : (le16 bits).length = 2)]
      simp only [Option.some_bind]
      rw [decLE_le16 hbits, takeExact_of_len _ hlabel]
      simp only [Option.some_bind]
      rw [parseLeafPtr_leaf lv2 lk2 lval2 (lh ++ rh) hv2 hk2 hval2]
      simp only [Option.some_bind]
      rw [if_pos (by simp [hlh, hrh] : 64 ≤ (lh ++ rh).length)]
      rw [takeExact_of_len _ hlh]
      simp only [Option.some_bind]
      rw [takeExact_exact hrh]
      simp only [Option.map_some']
      rw [decLE_le64 hv]
      simp [leafPtrNorm]
    · simp [LeafPtrWF] at hleaf

/-- Parsing inverts the compact internal-node serialization. -/
theorem internalSizedUnmarshal_compact (v bits : Nat) (label cb : List Nat)
    (leafP : Option Pointer)
    (hv : v < 18446744073709551616) (hbits : bits < 65536)
    (hlabel : label.length = (bits + 7) / 8) (hleaf : LeafPtrWF leafP)
    (hcb : internalCompactBytes v label bits leafP = some cb) :
    internalSizedUnmarshal cb =
      some (Node.internal true v label bits (leafPtrNorm leafP) none none
        (internalNodeHash v bits label (Pointer.getHash (leafPtrNorm leafP))
          emptyHash emptyHash), []) := by
  rcases leafP with _ | ⟨pc, ph, pn⟩
  · simp only [internalCompactBytes, padTrunc_of_len hlabel, Option.map_some',
      Option.some.injEq] at hcb
    subst hcb
    have hshape : [PrefixInternalNode] ++ le64 v ++ le16 bits ++ label ++ [PrefixNilNode] =
        PrefixInternalNode :: (le64 v ++ (le16 bits ++ (label ++ (PrefixNilNode :: ([] : List Nat))))) := by
      simp
    rw [hshape]
    simp only [internalSizedUnmarshal, if_pos]
    rw [takeExact_of_len _ (by rfl : (le64 v).length = 8)]
    simp only [Option.some_bind]
    rw [takeExact_of_len _ (by rfl : (le16 bits).length = 2)]
    simp only [Option.some_bind]
    rw [decLE_le16 hbits, takeExact_of_len _ hlabel]
    simp only [Option.some_bind]
    rw [parseLeafPtr_nil_marker]
    simp only [Option.some_bind]
    rw [if_neg (by simp : ¬ 64 ≤ ([] : List Nat).length)]
    rw [decLE_le64 hv]
    simp [leafPtrNorm]
  · rcases pn with _ | n
    · simp [LeafPtrWF] at hleaf
    rcases n with ⟨lcl, lv2, lk2, lval2, lhh⟩ | inode
    · obtain ⟨hv2, hk2, hval2⟩ := hleaf
      simp only [internalCompactBytes, padTrunc_of_len hlabel, Option.map_some',
        Option.some.injEq] at hcb
      subst hcb
      have hshape : [PrefixInternalNode] ++ le64 v ++ le16 bits ++ label
          ++ leafMarshalBinary lv2 lk2 lval2 =
          PrefixInternalNode :: (le64 v ++ (le16 bits ++ (label
            ++ (leafMarshalBinary lv2 lk2 lval2 ++ ([] : List Nat))))) := by
        simp
      rw [hshape]
      simp only [internalSizedUnmarshal, if_pos]
      rw [takeExact_of_len _ (by rfl : (le64 v).length = 8)]
      simp only [Option.some_bind]
      rw [takeExact_of_len _ (by rfl : (le16 bits).length = 2)]
      simp only [Option.some_bind]
      rw [decLE_le16 hbits, takeExact_of_len _ hlabel]
      simp only [Option.some_bind]
      rw [parseLeafPtr_leaf lv2 lk2 lval2 [] hv2 hk2 hval2]
      simp only [Option.some_bind]
      rw [if_neg (by simp : ¬ 64 ≤ ([] : List Nat).length)]
      rw [decLE_le64 hv]
      simp [leafPtrNorm]
    · simp [LeafPtrWF] at hleaf

theorem getHash_length {p : Option Pointer} (h : PtrHashWF p) :
    (Pointer.getHash p).length = 32 := by
  rcases p with _ | ⟨c, hs, n⟩
  · simpa [Pointer.getHash, emptyHash] using sha512_256_length []
  · simpa [Pointer.getHash] using h

theorem nodeUnmarshal_on_leafbytes (data t : List Nat) (h : data = PrefixLeafNode :: t) :
    Node.unmarshalBinary data = (leafSizedUnmarshal data).map Prod.fst := by
  subst h
  simp [Node.unmarshalBinary]

theorem nodeUnmarshal_on_internalbytes (data t : List Nat)
    (h : data = PrefixInternalNode :: t) :
    Node.unmarshalBinary data = (internalSizedUnmarshal data).map Prod.fst := by
  subst h
  simp [Node.unmarshalBinary, PrefixInternalNode, PrefixLeafNode]

theorem leafMarshalBinary_head (v : Nat) (k val : List Nat) :
    leafMarshalBinary v k val =
      PrefixLeafNode :: (le64 v ++ le32 k.length ++ k ++ le32 val.length ++ val) := by
  simp [leafMarshalBinary]

theorem internalCompactBytes_head {v bits : Nat} {label cb : List Nat}
    {leafP : Option Pointer} (hcb : internalCompactBytes v label bits leafP = some cb) :
    ∃ t, cb = PrefixInternalNode :: t := by
  rcases leafP with _ | ⟨pc, ph, pn⟩
  · simp only [internalCompactBytes, Option.map_some', Option.some.injEq] at hcb
    exact ⟨_, hcb.symm⟩
  · rcases pn with _ | n
    · simp [internalCompactBytes] at hcb
    rcases n with ⟨lcl, lv2, lk2, lval2, lhh⟩ | inode
    · simp only [internalCompactBytes, Option.map_some', Option.some.injEq] at hcb
      exact ⟨_, hcb.symm⟩
    · simp [internalCompactBytes] at hcb

theorem agreesCompact_decodedForm (full : Bool) (n : Node) (hwf : n.WF) :
    agreesCompactFields n (decodedForm full n) := by
  rcases n with ⟨cl, v, k, val, hs⟩ | ⟨cl, v, label, bits, leafP, l, r, hs⟩
  · cases full <;> simp [decodedForm, agreesCompactFields]
  · obtain ⟨-, -, -, hleaf, -, -⟩ := hwf
    have hc : leafContent leafP = leafContent (leafPtrNorm leafP) := by
      rcases leafP with _ | ⟨pc, ph, pn⟩
      · simp [leafContent, leafPtrNorm]
      · rcases pn with _ | nn
        · simp [LeafPtrWF] at hleaf
        rcases nn with ⟨lcl, lv2, lk2, lval2, lhh⟩ | inode
        · simp [leafContent, leafPtrNorm]
        · simp [LeafPtrWF] at hleaf
    cases full <;> simpa [decodedForm, agreesCompactFields] using hc

/-- C1: as stated the claim fails on the code.  Decoding the full binary
encoding of the test leaf of `TestSerializationLeafNode` (which is
constructed dirty: `Clean = false`) yields a node whose clean flag is
`true`, so `decode_full(encode_full(n))` differs from `n` on the clean
flag at this concrete node. -/
theorem node_codec_roundtrip_counterexample :
    ((Node.leaf false 3735928559 (strBytes "a golden key") (strBytes "value")
        []).marshalBinary.bind Node.unmarshalBinary) ≠
      some (Node.leaf false 3735928559 (strBytes "a golden key") (strBytes "value") []) := by
  intro hEq
  have h1 : (((Node.leaf false 3735928559 (strBytes "a golden key") (strBytes "value")
      []).marshalBinary.bind Node.unmarshalBinary).map Node.cleanOf) = some true := by
    rfl
  rw [hEq] at h1
  simp [Node.cleanOf] at h1

/-- C1 (amended): for every well-formed node `n`, decoding the full binary
encoding of `n` yields the clean decoded form of `n` — equal to `n` on
every field the full encoding carries (version, key and value for leaves;
version, label, label bit length, co-located leaf and child hashes for
internal nodes), with the clean flag forced `true` and hashes recomputed —
and decoding the compact encoding yields the clean decoded form that
agrees with `n` on every field the compact form carries. -/
theorem node_codec_roundtrip (n : Node) (hwf : n.WF) :
    (∀ bs, n.marshalBinary = some bs →
      Node.unmarshalBinary bs = some (decodedForm true n)) ∧
    (∀ bs, n.compactMarshalBinary = some bs →
      Node.unmarshalBinary bs = some (decodedForm false n)) ∧
    agreesFullFields n (decodedForm true n) ∧
    agreesCompactFields n (decodedForm false n) := by
  refine ⟨?_, ?_, ?_, agreesCompact_decodedForm false n hwf⟩
  · rcases n with ⟨cl, v, k, val, hs⟩ | ⟨cl, v, label, bits, leafP, l, r, hs⟩
    · obtain ⟨hv, hk, hval⟩ := hwf
      intro bs hbs
      simp only [Node.marshalBinary, Option.some.injEq] at hbs
      subst hbs
      rw [nodeUnmarshal_on_leafbytes _ _ (leafMarshalBinary_head v k val)]
      have h2 := leafSizedUnmarshal_marshal v k val [] hv hk hval
      simp only [List.append_nil] at h2
      rw [h2]
      simp [decodedForm]
    · obtain ⟨hv, hbits, hlabel, hleaf, hl, hr⟩ := hwf
      intro bs hbs
      simp only [Node.marshalBinary, Option.map_eq_some'] at hbs
      obtain ⟨cb, hcb, hbs⟩ := hbs
      subst hbs
      obtain ⟨t, ht⟩ := internalCompactBytes_head hcb
      rw [nodeUnmarshal_on_internalbytes _ (t ++ Pointer.getHash l ++ Pointer.getHash r)
        (by simp [ht])]
      rw [internalSizedUnmarshal_full v bits label (Pointer.getHash l) (Pointer.getHash r)
        cb leafP hv hbits hlabel hleaf
        (by simpa using hcb) (getHash_length hl) (getHash_length hr)]
      simp [decodedForm]
  · rcases n with ⟨cl, v, k, val, hs⟩ | ⟨cl, v, label, bits, leafP, l, r, hs⟩
    · obtain ⟨hv, hk, hval⟩ := hwf
      intro bs hbs
      simp only [Node.compactMarshalBinary, Option.some.injEq] at hbs
      subst hbs
      rw [nodeUnmarshal_on_leafbytes _ _ (leafMarshalBinary_head v k val)]
      have h2 := leafSizedUnmarshal_marshal v k val [] hv hk hval
      simp only [List.append_nil] at h2
      rw [h2]
      simp [decodedForm]
    · obtain ⟨hv, hbits, hlabel, hleaf, hl, hr⟩ := hwf
      intro bs hbs
      simp only [Node.compactMarshalBinary] at hbs
      obtain ⟨t, ht⟩ := internalCompactBytes_head hbs
      rw [nodeUnmarshal_on_internalbytes _ t ht]
      rw [internalSizedUnmarshal_compact v bits label bs leafP hv hbits hlabel hleaf hbs]
      simp [decodedForm]
  · rcases n with ⟨cl, v, k, val, hs⟩ | ⟨cl, v, label, bits, leafP, l, r, hs⟩
    · exact ⟨agreesCompact_decodedForm true _ hwf, trivial⟩
    · refine ⟨agreesCompact_decodedForm true _ hwf, ?_⟩
      simp [decodedForm, Pointer.getHash]

/-- C1 witness: the amended round-trip instantiated at a concrete dirty
leaf node. -/
theorem node_codec_roundtrip_witness :
    (Node.leaf false 42 [1, 2] [3] []).WF ∧
    Node.unmarshalBinary (leafMarshalBinary 42 [1, 2] [3]) =
      some (decodedForm true (Node.leaf false 42 [1, 2] [3] [])) := by
  have hwf : (Node.leaf false 42 [1, 2] [3] []).WF := by
    simp [Node.WF, LeafFieldsWF]
  exact ⟨hwf, (node_codec_roundtrip (Node.leaf false 42 [1, 2] [3] []) hwf).1 _ rfl⟩

/-- C2: as stated the claim fails: the hash computed by `UpdateHash` is not
the digest of the leaf node's full binary encoding — the full encoding
carries length prefixes for key and value, while the hash preimage does
not.  Digesting the full encoding of the golden leaf does not reproduce
the golden hash. -/
theorem leaf_hash_full_encoding_counterexample :
    bytesToHex (sha512_256 (leafMarshalBinary 3735928559 (strBytes "a golden key")
        (strBytes "value"))) ≠
      "1bf37ec60c5494775e7029ec2a888c42d14f9710852c86ffe0afab8e3c43b782" := by
  decide

/-- C2 (amended): `UpdateHash` on the leaf node with version `0xDEADBEEF`,
key `"a golden key"` and value `"value"` — digesting
`kind byte ‖ LE64 version ‖ key ‖ value`, without length prefixes — yields
exactly the golden hash of `TestHashLeafNode`. -/
theorem leaf_update_hash_golden :
    bytesToHex ((Node.updateHash (Node.leaf false 3735928559 (strBytes "a golden key")
        (strBytes "value") [])).hashOf) =
      "1bf37ec60c5494775e7029ec2a888c42d14f9710852c86ffe0afab8e3c43b782" := by
  decide

/-- C3: `UpdateHash` on the internal node with version `0xDEADBEEF`, label
`"abc"`, label bit length 23, child hashes derived from
`"everyone move to the left"` and `"everyone move to the right"` and a
co-located leaf pointer hash derived from `"everyone stop here"` yields
exactly the golden hash of `TestHashInternalNode`. -/
theorem internal_update_hash_golden :
    bytesToHex ((Node.updateHash (Node.internal false 3735928559 (strBytes "abc") 23
        (some (.mk true (sha512_256 (strBytes "everyone stop here")) none))
        (some (.mk true (sha512_256 (strBytes "everyone move to the left")) none))
        (some (.mk true (sha512_256 (strBytes "everyone move to the right")) none))
        [])).hashOf) =
      "e760353e9796f41b3bb2cfa2cf45f7e00ca687b6b84dc658e0ecadc906d5d21e" := by
  decide

/-- C4: for every leaf node the compact binary encoding is the identical
byte string to the full encoding (`CompactMarshalBinary` delegates to
`MarshalBinary` on leaves), and that common encoding decodes to the same
clean leaf carrying the node's version, key and value. -/
theorem leaf_compact_marshal_eq_full (cl : Bool) (v : Nat) (k val hs : List Nat)
    (hv : v < 18446744073709551616) (hk : k.length < 4294967296)
    (hval : val.length < 4294967296) :
    (Node.leaf cl v k val hs).compactMarshalBinary = (Node.leaf cl v k val hs).marshalBinary ∧
    (Node.leaf cl v k val hs).marshalBinary.bind Node.unmarshalBinary =
      some (Node.leaf true v k val (leafNodeHash v k val)) := by
  refine ⟨rfl, ?_⟩
  simp only [Node.marshalBinary, Option.some_bind]
  rw [nodeUnmarshal_on_leafbytes _ _ (leafMarshalBinary_head v k val)]
  have h2 := leafSizedUnmarshal_marshal v k val [] hv hk hval
  simp only [List.append_nil] at h2
  rw [h2]
  simp

/-- C4 witness: full/compact identity and decoding instantiated at the
golden leaf of `TestSerializationLeafNode`. -/
theorem leaf_compact_marshal_eq_full_witness :
    (Node.leaf false 3735928559 (strBytes "a golden key") (strBytes "value")
        []).compactMarshalBinary =
      (Node.leaf false 3735928559 (strBytes "a golden key") (strBytes "value")
        []).marshalBinary ∧
    (Node.leaf false 3735928559 (strBytes "a golden key") (strBytes "value")
        []).marshalBinary.bind Node.unmarshalBinary =
      some (Node.leaf true 3735928559 (strBytes "a golden key") (strBytes "value")
        (leafNodeHash 3735928559 (strBytes "a golden key") (strBytes "value"))) :=
  leaf_compact_marshal_eq_full false 3735928559 (strBytes "a golden key")
    (strBytes "value") [] (by decide) (by decide) (by decide)

/-- C5: as stated the claim fails on the code.  A successful
`Merge(ns, round, base, others)` call with round argument 5 returns a
receipt whose round component is 6, not 5: `databaseBackend.Merge` signs
the receipt for `round + 1`. -/
theorem merge_receipt_round_counterexample :
    databaseBackend.Merge (S := Unit) (fun st _ _ _ _ => .ok (st, [4]))
        ⟨[7], fun m => some m⟩ () [1] 5 [2] [] =
      ((), .ok [⟨[1], 6, [[4]], [7], receiptBodyEncode [1] 6 [[4]]⟩]) ∧
    (6 : Nat) ≠ 5 := by
  exact ⟨rfl, by decide⟩

/-- C5 (amended): for every successful merge call, the returned receipt is
a signed tuple over the call's namespace whose round component equals
`round + 1` (the round following the merge's round argument) and whose
roots are exactly the singleton list holding the computed merged root. -/
theorem merge_receipt_covers_merged_root {S : Type}
    (rootCacheMerge : S → List Nat → Nat → List Nat → List (List Nat) →
      Except StorageError (S × List Nat))
    (signer : Signer) (st st2 : S) (ns : List Nat) (round : Nat) (base : List Nat)
    (others : List (List Nat)) (newRoot : List Nat) (rcpt : Receipt)
    (hMerge : rootCacheMerge st ns round base others = .ok (st2, newRoot))
    (hSign : SignReceipt signer ns (round + 1) [newRoot] = some rcpt) :
    databaseBackend.Merge rootCacheMerge signer st ns round base others =
      (st2, .ok [rcpt]) ∧
    rcpt.ns = ns ∧ rcpt.round = round + 1 ∧ rcpt.roots = [newRoot] := by
  simp only [SignReceipt, Option.map_eq_some'] at hSign
  obtain ⟨sig, hsig, hrcpt⟩ := hSign
  refine ⟨?_, ?_, ?_, ?_⟩
  · simp [databaseBackend.Merge, hMerge, SignReceipt, hsig, ← hrcpt]
  · rw [← hrcpt]
  · rw [← hrcpt]
  · rw [← hrcpt]

/-- C5 witness: the amended receipt shape at a concrete successful merge. -/
theorem merge_receipt_covers_merged_root_witness :
    databaseBackend.Merge (S := Unit) (fun st _ _ _ _ => .ok (st, [4]))
        ⟨[7], fun m => some m⟩ () [1] 5 [2] [] =
      ((), .ok [⟨[1], 6, [[4]], [7], receiptBodyEncode [1] 6 [[4]]⟩]) ∧
    ([1] : List Nat) = [1] ∧ (6 : Nat) = 5 + 1 ∧ ([[4]] : List (List Nat)) = [[4]] := by
  have h := merge_receipt_covers_merged_root (S := Unit)
    (fun st _ _ _ _ => .ok (st, [4])) ⟨[7], fun m => some m⟩ () () [1] 5 [2] []
    [4] ⟨[1], 6, [[4]], [7], receiptBodyEncode [1] 6 [[4]]⟩ rfl rfl
  exact ⟨h.1, h.2.1, h.2.2.1, h.2.2.2⟩

/-- C6: as stated the claim fails on the code.  With a signer whose signing
operation fails, a successful root cache apply publishes the computed root
(the node database state changes from `[]` to `[[9]]`) and the call then
returns an error with no receipt: signing is sequenced after publication
and a signing failure is not rolled back. -/
theorem apply_receipt_atomicity_counterexample :
    databaseBackend.Apply (S := List (List Nat))
        (fun st _ _ _ _ dstRoot _ => .ok (dstRoot :: st, dstRoot))
        ⟨[7], fun _ => none⟩ [] [1] 0 [0] 1 [9] [] =
      ([[9]], .error .signer) ∧
    ([[9]] : List (List Nat)) ≠ [] := by
  exact ⟨rfl, by decide⟩

/-- C6 (amended): for every apply call, if the root cache apply fails then
the state is unchanged and the error propagates with no receipt; if it
succeeds and signing succeeds, the new state is returned together with a
single receipt over the computed root for the destination round; but if
signing fails after a successful apply, the root stays published in the
returned state while the call returns an error with no receipt — signing
is not atomic with root publication. -/
theorem apply_publication_and_receipt {S : Type}
    (rootCacheApply : S → List Nat → Nat → List Nat → Nat → List Nat → WriteLog →
      Except StorageError (S × List Nat))
    (signer : Signer) (st : S) (ns : List Nat) (srcRound : Nat) (srcRoot : List Nat)
    (dstRound : Nat) (dstRoot : List Nat) (writeLog : WriteLog) :
    (∀ e, rootCacheApply st ns srcRound srcRoot dstRound dstRoot writeLog = .error e →
      databaseBackend.Apply rootCacheApply signer st ns srcRound srcRoot dstRound dstRoot
        writeLog = (st, .error e)) ∧
    (∀ st2 newRoot rcpt,
      rootCacheApply st ns srcRound srcRoot dstRound dstRoot writeLog = .ok (st2, newRoot) →
      SignReceipt signer ns dstRound [newRoot] = some rcpt →
      databaseBackend.Apply rootCacheApply signer st ns srcRound srcRoot dstRound dstRoot
        writeLog = (st2, .ok [rcpt]) ∧ rcpt.round = dstRound ∧ rcpt.roots = [newRoot]) ∧
    (∀ st2 newRoot,
      rootCacheApply st ns srcRound srcRoot dstRound dstRoot writeLog = .ok (st2, newRoot) →
      SignReceipt signer ns dstRound [newRoot] = none →
      databaseBackend.Apply rootCacheApply signer st ns srcRound srcRoot dstRound dstRoot
        writeLog = (st2, .error .signer)) := by
  refine ⟨?_, ?_, ?_⟩
  · intro e he
    simp [databaseBackend.Apply, he]
  · intro st2 newRoot rcpt happly hsign
    have h1 : databaseBackend.Apply rootCacheApply signer st ns srcRound srcRoot dstRound
        dstRoot writeLog = (st2, .ok [rcpt]) := by
      simp [databaseBackend.Apply, happly, hsign]
    have h2 : rcpt.round = dstRound ∧ rcpt.roots = [newRoot] := by
      simp only [SignReceipt, Option.map_eq_some'] at hsign
      obtain ⟨sig, -, hrcpt⟩ := hsign
      rw [← hrcpt]
      exact ⟨rfl, rfl⟩
    exact ⟨h1, h2.1, h2.2⟩
  · intro st2 newRoot happly hsign
    simp [databaseBackend.Apply, happly, hsign]

/-- C6 witness: the publication/receipt behavior at a concrete successful
apply with a succeeding signer. -/
theorem apply_publication_and_receipt_witness :
    databaseBackend.Apply (S := List (List Nat))
        (fun st _ _ _ _ dstRoot _ => .ok (dstRoot :: st, dstRoot))
        ⟨[7], fun m => some m⟩ [] [1] 0 [0] 1 [9] [] =
      ([[9]], .ok [⟨[1], 1, [[9]], [7], receiptBodyEncode [1] 1 [[9]]⟩]) := by
  have h := (apply_publication_and_receipt (S := List (List Nat))
    (fun st _ _ _ _ dstRoot _ => .ok (dstRoot :: st, dstRoot))
    ⟨[7], fun m => some m⟩ [] [1] 0 [0] 1 [9] []).2.1 [[9]] [9]
    ⟨[1], 1, [[9]], [7], receiptBodyEncode [1] 1 [[9]]⟩ rfl rfl
  exact h.1

theorem applyOps_ok_length {S : Type}
    (f : S → ApplyOp → Except StorageError (S × List Nat)) :
    ∀ (ops : List ApplyOp) (st st2 : S) (roots : List (List Nat)),
      applyOps f st ops = (st2, .ok roots) → roots.length = ops.length := by
  intro ops
  induction ops with
  | nil =>
    intro st st2 roots h
    simp only [applyOps, Prod.mk.injEq] at h
    obtain ⟨-, h2⟩ := h
    simp [← Except.ok.inj h2]
  | cons op rest ih =>
    intro st st2 roots h
    simp only [applyOps] at h
    rcases hf : f st op with e0 | ⟨stM, root⟩
    · rw [hf] at h
      simp at h
    · rcases hR : applyOps f stM rest with ⟨st3, res⟩
      rcases res with e2 | roots2
      · simp only [hf, hR] at h
        simp at h
      · simp only [hf, hR, Prod.mk.injEq, Except.ok.injEq] at h
        obtain ⟨h1, h2⟩ := h
        rw [← h2]
        simp [ih stM st3 roots2 hR]

theorem applyOps_error_prefix {S : Type}
    (f : S → ApplyOp → Except StorageError (S × List Nat)) :
    ∀ (ops : List ApplyOp) (st st2 : S) (e : StorageError),
      applyOps f st ops = (st2, .error e) →
      ∃ k roots0, k < ops.length ∧
        applyOps f st (ops.take k) = (st2, .ok roots0) ∧ roots0.length = k ∧
        f st2 (ops.getD k dfltOp) = .error e := by
  intro ops
  induction ops with
  | nil =>
    intro st st2 e h
    simp [applyOps] at h
  | cons op rest ih =>
    intro st st2 e h
    simp only [applyOps] at h
    rcases hf : f st op with e0 | ⟨stM, root⟩
    · rw [hf] at h
      simp only [Prod.mk.injEq, Except.error.injEq] at h
      obtain ⟨h1, h2⟩ := h
      subst h1
      subst h2
      exact ⟨0, [], by simp, by simp [applyOps], rfl, by simpa using hf⟩
    · rcases hR : applyOps f stM rest with ⟨st3, res⟩
      rcases res with e2 | roots2
      · simp only [hf, hR, Prod.mk.injEq, Except.error.injEq] at h
        obtain ⟨h1, h2⟩ := h
        obtain ⟨k, roots0, hk, hpre, hlen, hfail⟩ := ih stM st3 e2 hR
        refine ⟨k + 1, root :: roots0, by simpa using Nat.succ_lt_succ hk, ?_,
          by simp [hlen], ?_⟩
        · simp only [List.take_succ_cons, applyOps, hf, hpre, h1]
        · simp only [List.getD_cons_succ]
          rw [← h1, ← h2]
          exact hfail
      · simp only [hf, hR] at h
        simp at h

/-- C9: `ApplyBatch` applies its operations strictly sequentially and is
not atomic across them.  On success it returns exactly one receipt,
signed for the destination round, whose roots are the per-op computed
roots in op order (one per op).  On failure of the `k`-th op it returns
the error and zero receipts, yet the returned node database state is the
state after the `k` earlier ops were applied and persisted. -/
theorem applyBatch_sequential_single_receipt {S : Type}
    (rootCacheApply : S → List Nat → Nat → List Nat → Nat → List Nat → WriteLog →
      Except StorageError (S × List Nat))
    (signer : Signer) (st : S) (ns : List Nat) (dstRound : Nat) (ops : List ApplyOp) :
    (∀ st2 roots rcpt,
      applyOps (fun s op =>
          rootCacheApply s ns op.srcRound op.srcRoot dstRound op.dstRoot op.writeLog)
        st ops = (st2, .ok roots) →
      SignReceipt signer ns dstRound roots = some rcpt →
      databaseBackend.ApplyBatch rootCacheApply signer st ns dstRound ops =
        (st2, .ok [rcpt]) ∧
      roots.length = ops.length ∧ rcpt.round = dstRound ∧ rcpt.roots = roots) ∧
    (∀ st2 e,
      applyOps (fun s op =>
          rootCacheApply s ns op.srcRound op.srcRoot dstRound op.dstRoot op.writeLog)
        st ops = (st2, .error e) →
      databaseBackend.ApplyBatch rootCacheApply signer st ns dstRound ops =
        (st2, .error e) ∧
      ∃ k roots0, k < ops.length ∧
        applyOps (fun s op =>
            rootCacheApply s ns op.srcRound op.srcRoot dstRound op.dstRoot op.writeLog)
          st (ops.take k) = (st2, .ok roots0) ∧ roots0.length = k ∧
        rootCacheApply st2 ns (ops.getD k dfltOp).srcRound (ops.getD k dfltOp).srcRoot
          dstRound (ops.getD k dfltOp).dstRoot (ops.getD k dfltOp).writeLog = .error e) := by
  constructor
  · intro st2 roots rcpt hops hsign
    refine ⟨?_, ?_, ?_, ?_⟩
    · simp [databaseBackend.ApplyBatch, hops, hsign]
    · exact applyOps_ok_length _ ops st st2 roots hops
    · simp only [SignReceipt, Option.map_eq_some'] at hsign
      obtain ⟨sig, -, hrcpt⟩ := hsign
      rw [← hrcpt]
    · simp only [SignReceipt, Option.map_eq_some'] at hsign
      obtain ⟨sig, -, hrcpt⟩ := hsign
      rw [← hrcpt]
  · intro st2 e hops
    refine ⟨by simp [databaseBackend.ApplyBatch, hops], ?_⟩
    obtain ⟨k, roots0, hk, hpre, hlen, hfail⟩ := applyOps_error_prefix _ ops st st2 e hops
    exact ⟨k, roots0, hk, hpre, hlen, hfail⟩

/-- C9 witness: a concrete two-op batch whose second op fails: the call
returns the error with no receipts while the state already holds the
first op's root. -/
theorem applyBatch_sequential_single_receipt_witness :
    databaseBackend.ApplyBatch (S := List (List Nat))
        (fun st _ _ _ _ droot _ =>
          if droot = [99] then .error (.cache 7) else .ok (droot :: st, droot))
        ⟨[7], fun m => some m⟩ [] [1] 3 [⟨0, [], [5], []⟩, ⟨0, [], [99], []⟩] =
      ([[5]], .error (.cache 7)) := by
  have h := (applyBatch_sequential_single_receipt (S := List (List Nat))
    (fun st _ _ _ _ droot _ =>
      if droot = [99] then .error (.cache 7) else .ok (droot :: st, droot))
    ⟨[7], fun m => some m⟩ [] [1] 3 [⟨0, [], [5], []⟩, ⟨0, [], [99], []⟩]).2
    [[5]] (.cache 7) rfl
  exact h.1

/-- C10: `DefaultFileName` maps each supported backend name to its default
filename and only the two supported names avoid the panic branch: every
other backend name panics. -/
theorem defaultFileName_supported_backends :
    DefaultFileName BackendNameLevelDB = some DBFileLevelDB ∧
    DefaultFileName BackendNameBadgerDB = some DBFileBadgerDB ∧
    ∀ b, b ≠ BackendNameLevelDB → b ≠ BackendNameBadgerDB → DefaultFileName b = none := by
  refine ⟨rfl, by decide, ?_⟩
  intro b h1 h2
  simp [DefaultFileName, h1, h2]

/-- C10 witness: the panic branch at the concrete unsupported name. -/
theorem defaultFileName_supported_backends_witness :
    DefaultFileName "sqlite" = none :=
  defaultFileName_supported_backends.2.2 "sqlite" (by decide) (by decide)

theorem checkBatchOps_first_limit (cfg : RuntimeStorageConfig) (validateWL : WriteLog → Bool) :
    ∀ (pre : List ApplyBatchOp) (op : ApplyBatchOp) (post : List ApplyBatchOp),
      cfg.maxApplyWriteLogEntries < op.writeLog.length →
      (∀ op2 ∈ pre, ¬ cfg.maxApplyWriteLogEntries < op2.writeLog.length →
        (op2.rootType = .io → validateWL op2.writeLog = true)) →
      checkBatchOps cfg validateWL (pre ++ op :: post) = some .limitReached := by
  intro pre
  induction pre with
  | nil =>
    intro op post hover _
    simp [checkBatchOps, hover]
  | cons op2 rest ih =>
    intro op post hover hpre
    simp only [List.cons_append, checkBatchOps]
    by_cases hcap : cfg.maxApplyWriteLogEntries < op2.writeLog.length
    · rw [if_pos hcap]
    · rw [if_neg hcap]
      have hio := hpre op2 (by simp) hcap
      have hcond : (decide (op2.rootType = RootType.io) && ! validateWL op2.writeLog) = false := by
        cases hr : op2.rootType
        · simp [hr]
        · simp [hr, hio hr]
      rw [if_neg (by simp [hcond])]
      exact ih op post hover (fun o ho hc => hpre o (by simp [ho]) hc)

/-- C7: as stated the claim fails on the code for `apply_batch`.  Per-op
checks run in op order with each op's write-log cap checked before its IO
validation, so a batch whose first op fails IO validation and whose second
op exceeds `max_apply_write_log_entries` is rejected with the malformed-IO
error, not with `LimitReached`. -/
theorem applyBatch_caps_counterexample :
    storageService.ApplyBatch true false (fun _ => some ⟨1, 10⟩) (fun _ => false)
        (fun _ => .ok []) ⟨[1], [⟨.io, []⟩, ⟨.state, [([1], [2]), ([3], [4])]⟩]⟩ =
      (.error .malformedIORoot, false) ∧
    ServiceError.malformedIORoot ≠ ServiceError.limitReached ∧
    (1 : Nat) < ([([1], [2]), ([3], [4])] : WriteLog).length := by
  refine ⟨rfl, by decide, ?_⟩
  simp [WriteLog]

/-- C7 (amended): with the service initialized, updates not debug-rejected
and the runtime configuration available, `Apply` fails with `LimitReached`
and never reaches the backend whenever its write log has more than
`max_apply_write_log_entries` entries; `ApplyBatch` does so whenever the
batch has more than `max_apply_ops` operations, and whenever some op
exceeds the write-log cap provided every earlier op passes its own
write-log cap and IO validation (checks run in op order, cap first). -/
theorem apply_caps_reject_limit_reached
    (getConfig : List Nat → Option RuntimeStorageConfig)
    (validateWL : WriteLog → Bool)
    (backendApply : ApplyRequest → Except ServiceError (List Receipt))
    (backendApplyBatch : ApplyBatchRequest → Except ServiceError (List Receipt))
    (request : ApplyRequest) (batchRequest : ApplyBatchRequest)
    (cfg : RuntimeStorageConfig) :
    (getConfig request.ns = some cfg →
      cfg.maxApplyWriteLogEntries < request.writeLog.length →
      storageService.Apply true false getConfig validateWL backendApply request =
        (.error .limitReached, false)) ∧
    (getConfig batchRequest.ns = some cfg →
      cfg.maxApplyOps < batchRequest.ops.length →
      storageService.ApplyBatch true false getConfig validateWL backendApplyBatch
        batchRequest = (.error .limitReached, false)) ∧
    (∀ pre op post,
      getConfig batchRequest.ns = some cfg →
      ¬ cfg.maxApplyOps < batchRequest.ops.length →
      batchRequest.ops = pre ++ op :: post →
      cfg.maxApplyWriteLogEntries < op.writeLog.length →
      (∀ op2 ∈ pre, ¬ cfg.maxApplyWriteLogEntries < op2.writeLog.length →
        (op2.rootType = .io → validateWL op2.writeLog = true)) →
      storageService.ApplyBatch true false getConfig validateWL backendApplyBatch
        batchRequest = (.error .limitReached, false)) := by
  refine ⟨?_, ?_, ?_⟩
  · intro hcfg hover
    simp [storageService.Apply, hcfg, hover]
  · intro hcfg hover
    simp [storageService.ApplyBatch, hcfg, hover]
  · intro pre op post hcfg hops hsplit hover hpre
    have hchk := checkBatchOps_first_limit cfg validateWL pre op post hover hpre
    rw [← hsplit] at hchk
    simp [storageService.ApplyBatch, hcfg, hops, hchk]

/-- C7 witness: a single-op batch over the write-log cap is rejected with
`LimitReached` without invoking the backend. -/
theorem apply_caps_reject_limit_reached_witness :
    storageService.Apply true false (fun _ => some ⟨1, 10⟩) (fun _ => true)
        (fun _ => .ok []) ⟨[1], .state, [([1], [2]), ([3], [4])]⟩ =
      (.error .limitReached, false) ∧
    storageService.ApplyBatch true false (fun _ => some ⟨1, 10⟩) (fun _ => true)
        (fun _ => .ok []) ⟨[1], [⟨.state, [([1], [2]), ([3], [4])]⟩]⟩ =
      (.error .limitReached, false) := by
  have h := apply_caps_reject_limit_reached (fun _ => some ⟨1, 10⟩) (fun _ => true)
    (fun _ => .ok []) (fun _ => .ok []) ⟨[1], .state, [([1], [2]), ([3], [4])]⟩
    ⟨[1], [⟨.state, [([1], [2]), ([3], [4])]⟩]⟩ ⟨1, 10⟩
  refine ⟨h.1 rfl (by simp [WriteLog]), ?_⟩
  exact h.2.2 [] ⟨.state, [([1], [2]), ([3], [4])]⟩ [] rfl (by simp) rfl
    (by simp [WriteLog]) (by simp)

/-- C8: the code contradicts the claim (and the project's own changelog
entry 3386.bugfix.1, which states that `context.Canceled` errors are not
considered permanent and must be retried): when the submit context is
canceled, `doSubmitTxToLeader` classifies the attempt as permanent —
wrapping `ctx.Err()` in `backoff.Permanent` — so the cancellation is never
retried, while an `Unavailable` status without a context error is the only
transient outcome. -/
theorem doSubmitTx_canceled_classified_permanent :
    doSubmitTxClassify (some .canceled) none = .permanent (.ctx .canceled) ∧
    (∀ s, doSubmitTxClassify (some .canceled) s = .permanent (.ctx .canceled)) ∧
    doSubmitTxClassify none (some .unavailable) = .transient (.grpc .unavailable) := by
  refine ⟨rfl, ?_, rfl⟩
  intro s
  rfl

end Oasis
